import Mathlib

/-!
# atheris `macros.h`: the portability header as a transformer of macro tables

`src/chinfuzz/thirdparty/atheris/src/native/macros.h` consists of preprocessor
directives only.  Its meaning is the effect it has on the preprocessor's macro
table, together with the way the names it defines are macro-expanded afterwards.

* `Tok`, `Env`      : preprocessing tokens and the table of object-like macros
* `expand`          : macro expansion of a token sequence (C11 6.10.3.4: the
                      replacement list is rescanned, a macro is never replaced
                      inside its own expansion)
* `Compiler`        : what the header asks the compiler: its own
                      `__has_attribute`, the attributes it recognises, the
                      value of a controlling expression
* `macros_h`        : the header, directive by directive
* `hardError`       : the header makes the preprocessor report an error

The table holds the macros defined by `#define`, the predefined ones included;
names that the compiler replaces by itself are not in it.
-/

namespace Atheris

/-- A preprocessing token: an identifier, a punctuator or a string literal. -/
inductive Tok where
  | ident (name : String)
  | punct (spelling : String)
  | str (contents : String)
  deriving DecidableEq, Repr

/-- The macro table: macro name and replacement list, most recent first.
Only object-like macros are recorded. -/
abbrev Env := List (String × List Tok)

/-- What `defined(name)` / `#ifdef name` evaluates to. -/
def defined (name : String) (env : Env) : Bool :=
  (env.lookup name).isSome

/-- The directive `#undef name`. -/
def undefine (name : String) (env : Env) : Env :=
  env.filter (fun p => p.1 != name)

/-- The directive `#define name replacement`: the new definition takes the place
of any earlier one (compilers diagnose a differing redefinition and go on with
the new one). -/
def define (name : String) (replacement : List Tok) (env : Env) : Env :=
  (name, replacement) :: undefine name env

/-- Replacement of one token while scanning.  `hide` holds the names of the
macros whose replacement is being rescanned: such a name is never replaced
again.  An identifier that names a macro is replaced by the rescanned
replacement list `rescan n r`; every other token stays. -/
def rescanTok (env : Env) (hide : List String) (rescan : String → List Tok → List Tok) :
    Tok → List Tok
  | .ident n =>
      if n ∈ hide then [.ident n]
      else match env.lookup n with
        | some r => rescan n r
        | none => [.ident n]
  | t => [t]

/-- Macro expansion of a token sequence with the names in `hide` not available
for replacement.  `fuel` bounds the nesting depth of replacements. -/
def expandFuel (env : Env) : Nat → List String → List Tok → List Tok
  | 0, _, ts => ts
  | fuel + 1, hide, ts =>
      ts.flatMap (rescanTok env hide (fun n r => expandFuel env fuel (n :: hide) r))

/-- Macro expansion in the table `env` with the names in `hide` not available
for replacement.  Every nested replacement adds a new defined name to the hidden
ones, so the nesting depth never exceeds the size of the table and the fuel
is never used up (`expandFuel_succ`). -/
def expandHiding (env : Env) (hide : List String) (ts : List Tok) : List Tok :=
  expandFuel env env.length hide ts

/-- Full macro expansion of a token sequence in the table `env`. -/
def expand (env : Env) (ts : List Tok) : List Tok :=
  expandHiding env [] ts

/-- The compiler side of a build, as far as the header asks it:
* `hasAttributeDefined`: the compiler has `__has_attribute` of its own
  (`#ifdef __has_attribute` holds without any `#define`);
* `supportsAttribute a`: the compiler recognises the attribute `a`, which is
  what its `__has_attribute(a)` reports;
* `supportsScopedAttribute s a`: the same for a scoped name `s::a`;
* `ifExpression ts`: the value of a macro-expanded controlling expression `ts`
  of `#if` in which the compiler's own `__has_attribute` does not occur, `none`
  when the expression is rejected. -/
structure Compiler where
  hasAttributeDefined : Bool
  supportsAttribute : String → Bool
  supportsScopedAttribute : String → String → Bool
  ifExpression : List Tok → Option Bool

/-- The value of the compiler's own `__has_attribute(x)` for an attribute
name `x`. -/
def Compiler.hasAttribute (c : Compiler) (x : String) : Bool :=
  c.supportsAttribute x

/-- The include guard, line 17-18. -/
def ATHERIS_MACROS_H_ : String := "ATHERIS_MACROS_H_"

/-- Replacement list of line 20: `__attribute__((no_sanitize_address))`. -/
def attrNoSanitizeAddress : List Tok :=
  [.ident "__attribute__", .punct "(", .punct "(", .ident "no_sanitize_address",
   .punct ")", .punct ")"]

/-- Replacement list of line 24: `__attribute__((no_sanitize("memory")))`. -/
def attrNoSanitizeMemory : List Tok :=
  [.ident "__attribute__", .punct "(", .punct "(", .ident "no_sanitize",
   .punct "(", .str "memory", .punct ")", .punct ")", .punct ")"]

/-- Line 22, `#ifdef __has_attribute`: the name is a macro of the table or the
compiler has it of its own. -/
def ifdefHasAttribute (c : Compiler) (env : Env) : Bool :=
  defined "__has_attribute" env || c.hasAttributeDefined

/-- Line 23, `#if __has_attribute(no_sanitize)`: the value of the condition,
`none` when the preprocessor rejects it with an error.  The line is
macro-expanded first.  A macro `__has_attribute` of the table takes the place of
the compiler's own and the expanded line is an ordinary controlling expression.
Otherwise the operand, macro-expanded, has to name an attribute, plain or
scoped, and the compiler answers for that name. -/
def ifHasAttributeNoSanitize (c : Compiler) (env : Env) : Option Bool :=
  if defined "__has_attribute" env then
    c.ifExpression
      (expand env [.ident "__has_attribute", .punct "(", .ident "no_sanitize", .punct ")"])
  else
    match expand env [.ident "no_sanitize"] with
    | [.ident a] => some (c.hasAttribute a)
    | [.ident s, .punct "::", .ident a] => some (c.supportsScopedAttribute s a)
    | _ => none

/-- Lines 22-30: the definition of `NO_SANITIZE_MEMORY`.  A condition that is
rejected is an error of the translation unit (`hardError`); the preprocessor
reports it and goes on with the `#else` group. -/
def defineNoSanitizeMemory (c : Compiler) (env : Env) : Env :=
  if ifdefHasAttribute c env then                                 -- #ifdef __has_attribute
    match ifHasAttributeNoSanitize c env with                     -- #if __has_attribute(no_sanitize)
    | some true => define "NO_SANITIZE_MEMORY" attrNoSanitizeMemory env
    | _ => define "NO_SANITIZE_MEMORY" [] env                     -- #else
  else
    define "NO_SANITIZE_MEMORY" [] env                            -- #else

/-- Lines 32-34: the alias `sighandler_t` on Apple platforms. -/
def defineSighandler (env : Env) : Env :=
  if defined "__APPLE__" env then                                 -- #ifdef __APPLE__
    define "sighandler_t" [.ident "sig_t"] env
  else env

/-- Lines 36-38: the fallback for `MAP_ANONYMOUS`. -/
def defineMapAnonymous (env : Env) : Env :=
  if !defined "MAP_ANONYMOUS" env && defined "MAP_ANON" env then  -- #if !defined(..) && defined(..)
    define "MAP_ANONYMOUS" [.ident "MAP_ANON"] env
  else env

/-- Lines 18-20: the guard and `NO_SANITIZE_ADDRESS`.  This is the table that
the conditions of lines 22 and 23 are evaluated in. -/
def macrosHead (env : Env) : Env :=
  let env := define ATHERIS_MACROS_H_ [] env
  define "NO_SANITIZE_ADDRESS" attrNoSanitizeAddress env

/-- Lines 18-40: what is between `#ifndef ATHERIS_MACROS_H_` and its `#endif`. -/
def macrosBody (c : Compiler) (env : Env) : Env :=
  let env := macrosHead env
  let env := defineNoSanitizeMemory c env
  let env := defineSighandler env
  let env := defineMapAnonymous env
  define "NO_SANITIZE" [.ident "NO_SANITIZE_ADDRESS", .ident "NO_SANITIZE_MEMORY"] env

/-- The whole header: the macro table after `#include "macros.h"`, given the
table before it. -/
def macros_h (c : Compiler) (env : Env) : Env :=
  if defined ATHERIS_MACROS_H_ env then env                       -- #ifndef ATHERIS_MACROS_H_
  else macrosBody c env

/-- The header makes the preprocessor report an error: at its first inclusion
the condition of line 23 is reached and rejected. -/
def hardError (c : Compiler) (env : Env) : Bool :=
  !defined ATHERIS_MACROS_H_ env && ifdefHasAttribute c (macrosHead env) &&
    (ifHasAttributeNoSanitize c (macrosHead env)).isNone

/-- The attribute named by a replacement list of the form
`__attribute__((name ...` . -/
def attributeOf : List Tok → Option String
  | .ident "__attribute__" :: .punct "(" :: .punct "(" :: .ident a :: _ => some a
  | _ => none

/-- A small evaluator of controlling expressions for the sample compilers: an
identifier that is left after macro expansion counts as 0, a decimal number
counts by its value; it understands `x`, `(x)` and negations of these and
rejects everything else. -/
def primaryExpression : List Tok → Option Bool
  | .punct "!" :: ts => (primaryExpression ts).map (fun b => !b)
  | [.punct "(", .ident _, .punct ")"] => some false
  | [.ident _] => some false
  | [.punct "(", .punct s, .punct ")"] => s.toNat?.map (fun n => n != 0)
  | [.punct s] => s.toNat?.map (fun n => n != 0)
  | _ => none

/-- A compiler of GCC/Clang kind with `__has_attribute` and both attributes. -/
def clang : Compiler :=
  ⟨true, fun a => a = "no_sanitize" || a = "no_sanitize_address",
   fun s a => s = "gnu" && (a = "no_sanitize" || a = "no_sanitize_address"),
   primaryExpression⟩

/-- A compiler without `__has_attribute` and without any attribute. -/
def plain : Compiler := ⟨false, fun _ => false, fun _ _ => false, primaryExpression⟩

/-- A Linux-like table: `MAP_ANONYMOUS` is there, `MAP_ANON` is its alias. -/
def linuxEnv : Env :=
  [("MAP_ANONYMOUS", [.punct "0x20"]), ("MAP_ANON", [.ident "MAP_ANONYMOUS"])]

/-- A macOS-like table: only `MAP_ANON`, and `__APPLE__`. -/
def appleEnv : Env :=
  [("__APPLE__", [.punct "1"]), ("MAP_ANON", [.punct "0x1000"])]

/-- A directive a consumer may place after the `#include`. -/
inductive Directive where
  | define (name : String) (replacement : List Tok)
  | undefine (name : String)

/-- The macro name a directive is about. -/
def Directive.name : Directive → String
  | .define n _ => n
  | .undefine n => n

/-- The effect of one directive on the table. -/
def Directive.run : Directive → Env → Env
  | .define n r, env => Atheris.define n r env
  | .undefine n, env => Atheris.undefine n env

/-- The effect of a sequence of directives, in order. -/
def runDirectives (ds : List Directive) (env : Env) : Env :=
  ds.foldl (fun e d => d.run e) env

/-- The names of the facilities the header provides (lines 20-40). -/
def facilities : List String :=
  ["NO_SANITIZE_ADDRESS", "NO_SANITIZE_MEMORY", "NO_SANITIZE", "sighandler_t", "MAP_ANONYMOUS"]

/-- The names, other than `f`, at which two tables that start out different at
the names `O` may differ after the header: the names `O` and the facilities. -/
def otherNames (O : List String) (f : String) : List String :=
  (O ++ facilities).filter (fun n => n != f)

/-- The expansion of `ts` in `env` never comes across one of `names`: with
these names hidden none of them is left in the result. -/
def avoids (env : Env) (names : List String) (ts : List Tok) : Prop :=
  ∀ g ∈ names, Tok.ident g ∉ expandHiding env names ts

/-! ## The macro table -/

theorem lookup_undefine (n m : String) (env : Env) :
    (undefine n env).lookup m = if m = n then none else env.lookup m := by
  induction env with
  | nil => simp [undefine]
  | cons p env ih =>
    obtain ⟨k, r⟩ := p
    unfold undefine at ih ⊢
    by_cases hk : k = n
    · subst hk
      by_cases hm : m = k
      · subst hm; simpa using ih
      · have : (m == k) = false := by simpa using hm
        simp only [List.filter_cons, bne_self_eq_false, Bool.false_eq_true, if_false, ih,
          List.lookup_cons, this, hm]
    · have hkn : (k != n) = true := by simpa using hk
      by_cases hm : m = k
      · subst hm
        simp [List.filter_cons, hkn, hk]
      · have : (m == k) = false := by simpa using hm
        simp only [List.filter_cons, hkn, if_true, List.lookup_cons, this, ih]

theorem lookup_define (n m : String) (r : List Tok) (env : Env) :
    (define n r env).lookup m = if m = n then some r else env.lookup m := by
  unfold define
  by_cases hm : m = n
  · subst hm; simp
  · have : (m == n) = false := by simpa using hm
    simp only [List.lookup_cons, this, lookup_undefine, hm, if_false]

theorem defined_define (n m : String) (r : List Tok) (env : Env) :
    defined m (define n r env) = if m = n then true else defined m env := by
  unfold defined
  rw [lookup_define]
  split <;> simp

theorem lookup_defineNoSanitizeMemory (c : Compiler) (k : String) (e : Env) :
    (defineNoSanitizeMemory c e).lookup k =
      if k = "NO_SANITIZE_MEMORY" then
        some (if ifdefHasAttribute c e = true ∧ ifHasAttributeNoSanitize c e = some true
          then attrNoSanitizeMemory else [])
      else e.lookup k := by
  unfold defineNoSanitizeMemory
  by_cases h1 : ifdefHasAttribute c e = true
  · rcases h2 : ifHasAttributeNoSanitize c e with _ | _ | _ <;>
      by_cases hk : k = "NO_SANITIZE_MEMORY" <;> simp [h1, h2, hk, lookup_define]
  · by_cases hk : k = "NO_SANITIZE_MEMORY" <;> simp [h1, hk, lookup_define]

theorem lookup_defineSighandler (k : String) (e : Env) :
    (defineSighandler e).lookup k =
      if k = "sighandler_t" then
        (if defined "__APPLE__" e = true then some [.ident "sig_t"] else e.lookup k)
      else e.lookup k := by
  unfold defineSighandler
  split_ifs <;> simp_all [lookup_define]

theorem lookup_defineMapAnonymous (k : String) (e : Env) :
    (defineMapAnonymous e).lookup k =
      if k = "MAP_ANONYMOUS" then
        (if defined "MAP_ANONYMOUS" e = false ∧ defined "MAP_ANON" e = true
          then some [.ident "MAP_ANON"] else e.lookup k)
      else e.lookup k := by
  unfold defineMapAnonymous
  split_ifs <;> simp_all [lookup_define]

theorem defined_eq (k : String) (e : Env) : defined k e = (e.lookup k).isSome := rfl

/-- The table after the body of the header, name by name. -/
theorem lookup_macrosBody (c : Compiler) (env : Env) (m : String) :
    (macrosBody c env).lookup m =
      if m = "NO_SANITIZE" then
        some [.ident "NO_SANITIZE_ADDRESS", .ident "NO_SANITIZE_MEMORY"]
      else if m = "MAP_ANONYMOUS" then
        (if defined "MAP_ANONYMOUS" env = false ∧ defined "MAP_ANON" env = true
          then some [.ident "MAP_ANON"] else env.lookup "MAP_ANONYMOUS")
      else if m = "sighandler_t" then
        (if defined "__APPLE__" env = true then some [.ident "sig_t"]
          else env.lookup "sighandler_t")
      else if m = "NO_SANITIZE_MEMORY" then
        some (if ifdefHasAttribute c (macrosHead env) = true ∧
            ifHasAttributeNoSanitize c (macrosHead env) = some true
          then attrNoSanitizeMemory else [])
      else if m = "NO_SANITIZE_ADDRESS" then some attrNoSanitizeAddress
      else if m = "ATHERIS_MACROS_H_" then some []
      else env.lookup m := by
  have hhead : ∀ k, (macrosHead env).lookup k =
      if k = "NO_SANITIZE_ADDRESS" then some attrNoSanitizeAddress
      else if k = "ATHERIS_MACROS_H_" then some [] else env.lookup k := by
    intro k
    simp only [macrosHead, lookup_define, ATHERIS_MACROS_H_]
  unfold macrosBody
  simp only [lookup_define, lookup_defineMapAnonymous, lookup_defineSighandler,
    lookup_defineNoSanitizeMemory, defined_eq, hhead]
  simp only [String.reduceEq, if_false]
  by_cases h1 : m = "NO_SANITIZE"
  · simp only [h1, if_true]
  simp only [h1, if_false]
  by_cases h2 : m = "MAP_ANONYMOUS"
  · subst h2
    simp only [String.reduceEq, if_false, if_true]
  simp only [h2, if_false]
  by_cases h3 : m = "sighandler_t"
  · subst h3
    simp only [String.reduceEq, if_false, if_true]
  simp only [h3, if_false]

/-- The header at its first inclusion runs its body. -/
theorem macros_h_first (c : Compiler) (env : Env)
    (hfirst : defined ATHERIS_MACROS_H_ env = false) :
    macros_h c env = macrosBody c env := by
  simp [macros_h, hfirst]

/-- The header does nothing when its guard is defined. -/
theorem macros_h_again (c : Compiler) (env : Env)
    (hguard : defined ATHERIS_MACROS_H_ env = true) :
    macros_h c env = env := by
  simp [macros_h, hguard]

/-! ## Macro expansion -/

theorem flatMap_eq_self {α : Type} (g : α → List α) (ts : List α)
    (h : ∀ t ∈ ts, g t = [t]) : ts.flatMap g = ts := by
  induction ts with
  | nil => rfl
  | cons t ts ih =>
    rw [List.flatMap_cons, h t (List.mem_cons_self _ _),
      ih (fun u hu => h u (List.mem_cons_of_mem _ hu))]
    rfl

theorem flatMap_congr_mem {α β : Type} (g g' : α → List β) (ts : List α)
    (h : ∀ t ∈ ts, g t = g' t) : ts.flatMap g = ts.flatMap g' := by
  induction ts with
  | nil => rfl
  | cons t ts ih =>
    rw [List.flatMap_cons, List.flatMap_cons, h t (List.mem_cons_self _ _),
      ih (fun u hu => h u (List.mem_cons_of_mem _ hu))]

theorem mem_keys_of_lookup (env : Env) (n : String) (r : List Tok)
    (h : env.lookup n = some r) : n ∈ env.map Prod.fst := by
  induction env with
  | nil => simp at h
  | cons p env ih =>
    obtain ⟨k, v⟩ := p
    by_cases hk : n = k
    · simp [hk]
    · have : (n == k) = false := by simpa using hk
      rw [List.lookup_cons, this] at h
      simp only [List.map_cons, List.mem_cons]
      exact Or.inr (ih h)

/-- A duplicate-free list of defined names that is as long as the table holds
every defined name. -/
theorem mem_of_full (env : Env) (h0 : List String) (nd : h0.Nodup)
    (hd : ∀ n ∈ h0, defined n env = true) (hl : env.length ≤ h0.length)
    (n : String) (r : List Tok) (hn : env.lookup n = some r) : n ∈ h0 := by
  have hsub : h0 ⊆ env.map Prod.fst := by
    intro k hk
    have := hd k hk
    rw [defined_eq, Option.isSome_iff_exists] at this
    obtain ⟨v, hv⟩ := this
    exact mem_keys_of_lookup env k v hv
  have hperm : h0.Perm (env.map Prod.fst) :=
    (List.subperm_of_subset nd hsub).perm_of_length_le (by simpa using hl)
  exact hperm.mem_iff.mpr (mem_keys_of_lookup env n r hn)

theorem expandFuel_succ_eq (env : Env) (f : Nat) (h : List String) (ts : List Tok) :
    expandFuel env (f + 1) h ts =
      ts.flatMap (rescanTok env h (fun n r => expandFuel env f (n :: h) r)) := rfl

theorem expandFuel_append (env : Env) (f : Nat) (h : List String) (ts us : List Tok) :
    expandFuel env f h (ts ++ us) = expandFuel env f h ts ++ expandFuel env f h us := by
  cases f with
  | zero => rfl
  | succ f => simp only [expandFuel_succ_eq, List.flatMap_append]

/-- One more unit of fuel changes nothing once the fuel covers the names of the
table that are not hidden yet: the fuel of `expandHiding` is never used up. -/
theorem expandFuel_succ (env : Env) :
    ∀ (f : Nat) (h h0 : List String) (ts : List Tok), h0.Nodup →
      (∀ n ∈ h0, n ∈ h ∧ defined n env = true) → env.length ≤ f + h0.length →
      expandFuel env (f + 1) h ts = expandFuel env f h ts := by
  intro f
  induction f with
  | zero =>
    intro h h0 ts nd hd hl
    rw [expandFuel_succ_eq]
    show _ = ts
    apply flatMap_eq_self
    intro t _
    cases t with
    | ident n =>
      simp only [rescanTok]
      split_ifs with hn
      · rfl
      · cases hlk : env.lookup n with
        | none => rfl
        | some r =>
          exact absurd (hd n (mem_of_full env h0 nd (fun k hk => (hd k hk).2)
            (by simpa using hl) n r hlk)).1 hn
    | punct s => rfl
    | str s => rfl
  | succ f ih =>
    intro h h0 ts nd hd hl
    rw [expandFuel_succ_eq, expandFuel_succ_eq]
    apply flatMap_congr_mem
    intro t _
    cases t with
    | ident n =>
      simp only [rescanTok]
      split_ifs with hn
      · rfl
      · cases hlk : env.lookup n with
        | none => rfl
        | some r =>
          have hn0 : n ∉ h0 := fun hmem => hn (hd n hmem).1
          refine ih (n :: h) (n :: h0) r (List.nodup_cons.mpr ⟨hn0, nd⟩) ?_ ?_
          · intro k hk
            rcases List.mem_cons.mp hk with rfl | hk
            · exact ⟨List.mem_cons_self _ _, by rw [defined_eq, hlk]; rfl⟩
            · exact ⟨List.mem_cons_of_mem _ (hd k hk).1, (hd k hk).2⟩
          · simp only [List.length_cons]; omega
    | punct s => rfl
    | str s => rfl

/-- Any fuel from the size of the table on gives the expansion. -/
theorem expandFuel_ge (env : Env) (h : List String) (ts : List Tok) :
    ∀ k : Nat, expandFuel env (env.length + k) h ts = expandHiding env h ts := by
  intro k
  induction k with
  | zero => rfl
  | succ k ih =>
    rw [← ih, ← Nat.add_assoc]
    exact expandFuel_succ env (env.length + k) h [] ts List.nodup_nil
      (fun n hn => absurd hn (List.not_mem_nil n)) (by simp)

/-- Names whose hiding leaves no trace in the result need not be hidden. -/
theorem expandFuel_unhide (env : Env) (O : List String) :
    ∀ (f : Nat) (h h' : List String) (ts : List Tok),
      (∀ m, m ∈ h' ↔ m ∈ O ∨ m ∈ h) →
      (∀ g ∈ O, Tok.ident g ∉ expandFuel env f h' ts) →
      expandFuel env f h ts = expandFuel env f h' ts := by
  intro f
  induction f with
  | zero => intro h h' ts _ _; rfl
  | succ f ih =>
    intro h h' ts hh hO
    rw [expandFuel_succ_eq, expandFuel_succ_eq]
    apply flatMap_congr_mem
    intro t ht
    have hOt : ∀ g ∈ O, Tok.ident g ∉
        rescanTok env h' (fun n r => expandFuel env f (n :: h') r) t := by
      intro g hg hmem
      apply hO g hg
      rw [expandFuel_succ_eq]
      exact List.mem_flatMap.mpr ⟨t, ht, hmem⟩
    cases t with
    | ident n =>
      simp only [rescanTok] at hOt ⊢
      by_cases hn' : n ∈ h'
      · have hnO : n ∉ O := by
          intro hnO
          have := hOt n hnO
          simp [hn'] at this
        have hn : n ∈ h := ((hh n).mp hn').resolve_left hnO
        simp only [hn, hn', if_true]
      · have hn : n ∉ h := fun hn => hn' ((hh n).mpr (Or.inr hn))
        simp only [hn, hn', if_false] at hOt ⊢
        cases hlk : env.lookup n with
        | none => rfl
        | some r =>
          simp only [hlk] at hOt
          refine ih (n :: h) (n :: h') r ?_ hOt
          intro m
          simp only [List.mem_cons, hh m]
          tauto
    | punct s => rfl
    | str s => rfl

/-- The expansion only looks at the definitions of names that are not hidden. -/
theorem expandFuel_congr_env (env1 env2 : Env) (O : List String)
    (hag : ∀ n, n ∉ O → env1.lookup n = env2.lookup n) :
    ∀ (f : Nat) (h : List String) (ts : List Tok), (∀ g ∈ O, g ∈ h) →
      expandFuel env1 f h ts = expandFuel env2 f h ts := by
  intro f
  induction f with
  | zero => intro h ts _; rfl
  | succ f ih =>
    intro h ts hO
    rw [expandFuel_succ_eq, expandFuel_succ_eq]
    apply flatMap_congr_mem
    intro t _
    cases t with
    | ident n =>
      simp only [rescanTok]
      split_ifs with hn
      · rfl
      · have hnO : n ∉ O := fun hnO => hn (hO n hnO)
        rw [hag n hnO]
        cases env2.lookup n with
        | none => rfl
        | some r => exact ih (n :: h) r (fun g hg => List.mem_cons_of_mem _ (hO g hg))
    | punct s => rfl
    | str s => rfl

theorem expandHiding_append (env : Env) (h : List String) (ts us : List Tok) :
    expandHiding env h (ts ++ us) = expandHiding env h ts ++ expandHiding env h us :=
  expandFuel_append env env.length h ts us

/-- Expanding a macro name that is not hidden is rescanning its replacement
list with the name hidden as well. -/
theorem expandHiding_ident (env : Env) (h : List String) (n : String) (r : List Tok)
    (hn : env.lookup n = some r) (hnh : n ∉ h) (nd : h.Nodup)
    (hd : ∀ m ∈ h, defined m env = true) :
    expandHiding env h [.ident n] = expandHiding env (n :: h) r := by
  cases henv : env with
  | nil => rw [henv] at hn; simp at hn
  | cons p tl =>
    rw [← henv]
    have hlen : env.length = tl.length + 1 := by rw [henv]; rfl
    have hstep : expandFuel env (tl.length + 1) (n :: h) r =
        expandFuel env tl.length (n :: h) r := by
      refine expandFuel_succ env tl.length (n :: h) (n :: h) r
        (List.nodup_cons.mpr ⟨hnh, nd⟩) ?_ ?_
      · intro k hk
        refine ⟨hk, ?_⟩
        rcases List.mem_cons.mp hk with rfl | hk
        · rw [defined_eq, hn]; rfl
        · exact hd k hk
      · simp only [List.length_cons, hlen]; omega
    unfold expandHiding
    rw [hlen, hstep, expandFuel_succ_eq]
    simp [rescanTok, hn, hnh]

/-- Expanding a macro name is rescanning its replacement list with the name
itself hidden. -/
theorem expand_ident (env : Env) (n : String) (r : List Tok)
    (hn : env.lookup n = some r) :
    expand env [.ident n] = expandHiding env [n] r :=
  expandHiding_ident env [] n r hn (List.not_mem_nil n) List.nodup_nil
    (fun m hm => absurd hm (List.not_mem_nil m))

/-- An identifier that names no macro stays as it is. -/
theorem expandHiding_undefined (env : Env) (h : List String) (n : String)
    (hn : env.lookup n = none) : expandHiding env h [.ident n] = [.ident n] := by
  unfold expandHiding
  cases env.length with
  | zero => rfl
  | succ k =>
    rw [expandFuel_succ_eq]
    by_cases hh : n ∈ h <;> simp [rescanTok, hn, hh]

/-- A token sequence expands token by token. -/
theorem expand_middle (env : Env) (pre post : List Tok) (t : Tok) :
    expand env (pre ++ t :: post) = expand env pre ++ (expand env [t] ++ expand env post) := by
  unfold expand
  rw [expandHiding_append, ← List.singleton_append, expandHiding_append]

/-- A token sequence none of whose identifiers names a macro stays as it is. -/
theorem expandHiding_eq_self (env : Env) (h : List String) (ts : List Tok)
    (hts : ∀ n, Tok.ident n ∈ ts → env.lookup n = none) : expandHiding env h ts = ts := by
  unfold expandHiding
  cases env.length with
  | zero => rfl
  | succ k =>
    rw [expandFuel_succ_eq]
    apply flatMap_eq_self
    intro t ht
    cases t with
    | ident n => by_cases hh : n ∈ h <;> simp [rescanTok, hts n ht, hh]
    | punct s => rfl
    | str s => rfl

theorem expand_cons (env : Env) (t : Tok) (post : List Tok) :
    expand env (t :: post) = expand env [t] ++ expand env post := by
  unfold expand
  rw [← List.singleton_append, expandHiding_append]

theorem expandHiding_nil (env : Env) (h : List String) : expandHiding env h [] = [] := by
  unfold expandHiding
  cases env.length <;> rfl

/-- Hidden names that do not show up in the result did not matter. -/
theorem expandHiding_unhide (env : Env) (O : List String) (ts : List Tok)
    (hO : ∀ g ∈ O, Tok.ident g ∉ expandHiding env O ts) :
    expand env ts = expandHiding env O ts :=
  expandFuel_unhide env O env.length [] O ts (fun m => by simp) hO

/-- Two tables that agree on every name outside `O` expand a token sequence
alike when its expansion does not run into a name of `O`. -/
theorem expand_congr_env (env1 env2 : Env) (O : List String) (ts : List Tok)
    (hag : ∀ n, n ∉ O → env1.lookup n = env2.lookup n)
    (hO : ∀ g ∈ O, Tok.ident g ∉ expandHiding env1 O ts) :
    expand env1 ts = expand env2 ts := by
  have h12 : expandHiding env1 O ts = expandHiding env2 O ts := by
    rw [← expandFuel_ge env1 O ts env2.length, ← expandFuel_ge env2 O ts env1.length,
      Nat.add_comm env2.length env1.length]
    exact expandFuel_congr_env env1 env2 O hag _ O ts (fun g hg => hg)
  rw [expandHiding_unhide env1 O ts hO, h12]
  exact (expandHiding_unhide env2 O ts (by rw [← h12]; exact hO)).symm

/-- A macro name whose expansion does not mention the name itself expands to
the full expansion of its replacement list. -/
theorem expand_ident_of_not_mem (env : Env) (n : String) (r : List Tok)
    (hn : env.lookup n = some r) (hself : Tok.ident n ∉ expand env [.ident n]) :
    expand env [.ident n] = expand env r := by
  rw [expand_ident env n r hn] at hself ⊢
  refine (expandHiding_unhide env [n] r ?_).symm
  intro g hg
  rw [List.mem_singleton] at hg
  subst hg
  exact hself

theorem defined_runDirectives (ds : List Directive) (k : String)
    (hk : ∀ d ∈ ds, d.name ≠ k) (env : Env) :
    defined k (runDirectives ds env) = defined k env := by
  induction ds generalizing env with
  | nil => rfl
  | cons d ds ih =>
    have hd : d.name ≠ k := hk d (List.mem_cons_self _ _)
    have hrest := ih (fun e he => hk e (List.mem_cons_of_mem _ he)) (d.run env)
    have hrun : defined k (d.run env) = defined k env := by
      cases d with
      | define n r =>
        have : k ≠ n := fun h => hd h.symm
        simp [Directive.run, defined_define, this]
      | undefine n =>
        have : k ≠ n := fun h => hd h.symm
        simp [Directive.run, defined_eq, lookup_undefine, this]
    simpa [runDirectives, hrun] using hrest

theorem defined_guard_macros_h (c : Compiler) (env : Env) :
    defined ATHERIS_MACROS_H_ (macros_h c env) = true := by
  by_cases h : defined ATHERIS_MACROS_H_ env = true
  · rw [macros_h_again c env h]; exact h
  · rw [macros_h_first c env (by simpa using h), defined_eq, ATHERIS_MACROS_H_,
      lookup_macrosBody]
    simp

/-- A hidden name that occurs in the token sequence occurs in its expansion. -/
theorem mem_expandFuel_of_hidden (env : Env) (f : Nat) (h : List String) (ts : List Tok)
    (n : String) (hn : n ∈ h) (hts : Tok.ident n ∈ ts) :
    Tok.ident n ∈ expandFuel env f h ts := by
  cases f with
  | zero => exact hts
  | succ f =>
    rw [expandFuel_succ_eq]
    refine List.mem_flatMap.mpr ⟨.ident n, hts, ?_⟩
    simp [rescanTok, hn]

/-- An alias `a` of `b` is not left in any expansion made while `b` is being
rescanned: wherever `a` comes up it is replaced by `b`. -/
theorem not_mem_expandFuel_alias (env : Env) (a b : String) (hab : a ≠ b)
    (ha : env.lookup a = some [.ident b]) :
    ∀ (f : Nat) (hide h0 : List String) (ts : List Tok), b ∈ hide → a ∉ hide → h0.Nodup →
      (∀ n ∈ h0, n ∈ hide ∧ defined n env = true) → env.length ≤ f + h0.length →
      Tok.ident a ∉ expandFuel env f hide ts := by
  intro f
  induction f with
  | zero =>
    intro hide h0 ts _ hah nd hd hl _
    exact hah (hd a (mem_of_full env h0 nd (fun k hk => (hd k hk).2)
      (by simpa using hl) a _ ha)).1
  | succ f ih =>
    intro hide h0 ts hb hah nd hd hl hmem
    rw [expandFuel_succ_eq] at hmem
    obtain ⟨t, _, ht⟩ := List.mem_flatMap.mp hmem
    cases t with
    | ident n =>
      simp only [rescanTok] at ht
      by_cases hn : n ∈ hide
      · rw [if_pos hn, List.mem_singleton] at ht
        cases ht
        exact hah hn
      · rw [if_neg hn] at ht
        cases hlk : env.lookup n with
        | none =>
          rw [hlk, List.mem_singleton] at ht
          cases ht
          rw [ha] at hlk
          cases hlk
        | some r =>
          rw [hlk] at ht
          dsimp only at ht
          by_cases hna : n = a
          · subst hna
            rw [ha] at hlk
            cases hlk
            cases f with
            | zero =>
              rw [show expandFuel env 0 (n :: hide) [Tok.ident b] = [Tok.ident b] from rfl,
                List.mem_singleton] at ht
              cases ht
              exact hab rfl
            | succ f =>
              rw [expandFuel_succ_eq] at ht
              simp [rescanTok, hb] at ht
              exact hab ht
          · have hn0 : n ∉ h0 := fun hm => hn (hd n hm).1
            refine ih (n :: hide) (n :: h0) r (List.mem_cons_of_mem _ hb) ?_
              (List.nodup_cons.mpr ⟨hn0, nd⟩) ?_ ?_ ht
            · intro hm
              rcases List.mem_cons.mp hm with h | h
              · exact hna h.symm
              · exact hah h
            · intro k hk
              rcases List.mem_cons.mp hk with rfl | hk
              · exact ⟨List.mem_cons_self _ _, by rw [defined_eq, hlk]; rfl⟩
              · exact ⟨List.mem_cons_of_mem _ (hd k hk).1, (hd k hk).2⟩
            · simp only [List.length_cons]; omega
    | punct s =>
      simp only [rescanTok, List.mem_singleton] at ht
      cases ht
    | str s =>
      simp only [rescanTok, List.mem_singleton] at ht
      cases ht

/-- An alias `a` of a macro `b` is not left in the full expansion of `b`. -/
theorem not_mem_expand_of_alias (env : Env) (a b : String) (r : List Tok) (hab : a ≠ b)
    (ha : env.lookup a = some [.ident b]) (hb : env.lookup b = some r) :
    Tok.ident a ∉ expand env [.ident b] := by
  rw [expand_ident env b r hb]
  refine not_mem_expandFuel_alias env a b hab ha env.length [b] [b] r
    (List.mem_singleton_self _) ?_ (List.nodup_singleton _) ?_ (by simp)
  · rw [List.mem_singleton]; exact hab
  · intro n hn
    rw [List.mem_singleton] at hn
    subst hn
    exact ⟨List.mem_singleton_self _, by rw [defined_eq, hb]; rfl⟩

/-- The header leaves every name that is not a facility as it was, the guard
apart. -/
theorem lookup_macros_h_other (c : Compiler) (env : Env)
    (hfirst : defined ATHERIS_MACROS_H_ env = false) (n : String) (hn : n ∉ facilities) :
    (macros_h c env).lookup n = if n = "ATHERIS_MACROS_H_" then some [] else env.lookup n := by
  simp only [facilities, List.mem_cons, List.mem_singleton, List.not_mem_nil, or_false,
    not_or] at hn
  rw [macros_h_first c env hfirst, lookup_macrosBody]
  simp only [hn.1, hn.2.1, hn.2.2.1, hn.2.2.2.1, hn.2.2.2.2, if_false]

/-- In the table of line 22 every name but the guard and `NO_SANITIZE_ADDRESS`
is as before the header. -/
theorem lookup_macrosHead (env : Env) (k : String) :
    (macrosHead env).lookup k =
      if k = "NO_SANITIZE_ADDRESS" then some attrNoSanitizeAddress
      else if k = "ATHERIS_MACROS_H_" then some [] else env.lookup k := by
  simp only [macrosHead, lookup_define, ATHERIS_MACROS_H_]

/-! ## The claims -/

/-- C1, as stated: the replacement of `NO_SANITIZE_MEMORY` is the attribute
exactly when the compiler has `__has_attribute` and supports `no_sanitize`.
This fails when `no_sanitize` is a macro of the table: the operand of
`__has_attribute` is macro-expanded, so after `#define no_sanitize foo` the
compiler is asked about `foo` and `NO_SANITIZE_MEMORY` is defined empty,
although nothing is rejected. -/
theorem no_sanitize_memory_not_by_support_alone :
    ¬ (∀ (c : Compiler) (env : Env), defined ATHERIS_MACROS_H_ env = false →
        hardError c env = false →
        ((macros_h c env).lookup "NO_SANITIZE_MEMORY" = some attrNoSanitizeMemory ↔
          (c.hasAttributeDefined = true ∧ c.hasAttribute "no_sanitize" = true))) := by
  intro h
  have := h clang [("no_sanitize", [.ident "foo"])] (by decide) (by decide)
  exact absurd this (by decide)

/-- C1, amended: at its first inclusion the header defines `NO_SANITIZE_MEMORY`
in every build configuration; the replacement is
`__attribute__((no_sanitize("memory")))` exactly when `#ifdef __has_attribute`
holds and `#if __has_attribute(no_sanitize)` evaluates to true, and the empty
token sequence in every other configuration, so it is never anything but one of
the two.  When `__has_attribute` is no macro of the table, the condition holds
exactly when the compiler has `__has_attribute` and reports support for the
attribute that the macro-expanded operand names; that attribute is
`no_sanitize` when `no_sanitize` is no macro either, and then nothing is
rejected. -/
theorem no_sanitize_memory_definition (c : Compiler) (env : Env)
    (hfirst : defined ATHERIS_MACROS_H_ env = false) :
    defined "NO_SANITIZE_MEMORY" (macros_h c env) = true ∧
    ((macros_h c env).lookup "NO_SANITIZE_MEMORY" = some attrNoSanitizeMemory ↔
      (ifdefHasAttribute c (macrosHead env) = true ∧
        ifHasAttributeNoSanitize c (macrosHead env) = some true)) ∧
    ((macros_h c env).lookup "NO_SANITIZE_MEMORY" = some [] ↔
      ¬ (ifdefHasAttribute c (macrosHead env) = true ∧
        ifHasAttributeNoSanitize c (macrosHead env) = some true)) ∧
    ((macros_h c env).lookup "NO_SANITIZE_MEMORY" = some attrNoSanitizeMemory ∨
      (macros_h c env).lookup "NO_SANITIZE_MEMORY" = some []) ∧
    (env.lookup "__has_attribute" = none →
      ∀ a, expand (macrosHead env) [.ident "no_sanitize"] = [.ident a] →
        ((macros_h c env).lookup "NO_SANITIZE_MEMORY" = some attrNoSanitizeMemory ↔
          (c.hasAttributeDefined = true ∧ c.hasAttribute a = true))) ∧
    (env.lookup "__has_attribute" = none → env.lookup "no_sanitize" = none →
      hardError c env = false ∧
      ((macros_h c env).lookup "NO_SANITIZE_MEMORY" = some attrNoSanitizeMemory ↔
        (c.hasAttributeDefined = true ∧ c.hasAttribute "no_sanitize" = true))) := by
  have hlk : (macros_h c env).lookup "NO_SANITIZE_MEMORY" =
      some (if ifdefHasAttribute c (macrosHead env) = true ∧
          ifHasAttributeNoSanitize c (macrosHead env) = some true
        then attrNoSanitizeMemory else []) := by
    rw [macros_h_first c env hfirst, lookup_macrosBody]
    simp only [String.reduceEq, if_false, if_true]
  have hiff : (macros_h c env).lookup "NO_SANITIZE_MEMORY" = some attrNoSanitizeMemory ↔
      (ifdefHasAttribute c (macrosHead env) = true ∧
        ifHasAttributeNoSanitize c (macrosHead env) = some true) := by
    rw [hlk]
    by_cases hc : ifdefHasAttribute c (macrosHead env) = true ∧
        ifHasAttributeNoSanitize c (macrosHead env) = some true
    · simp [hc]
    · simp [hc, attrNoSanitizeMemory]
  have hbuiltin : env.lookup "__has_attribute" = none →
      ∀ a, expand (macrosHead env) [.ident "no_sanitize"] = [.ident a] →
        hardError c env = false ∧
        ((macros_h c env).lookup "NO_SANITIZE_MEMORY" = some attrNoSanitizeMemory ↔
          (c.hasAttributeDefined = true ∧ c.hasAttribute a = true)) := by
    intro hha a hop
    have hnd : defined "__has_attribute" (macrosHead env) = false := by
      rw [defined_eq, lookup_macrosHead]
      simp only [String.reduceEq, if_false, hha]
      rfl
    have hifdef : ifdefHasAttribute c (macrosHead env) = c.hasAttributeDefined := by
      simp [ifdefHasAttribute, hnd]
    have hcond : ifHasAttributeNoSanitize c (macrosHead env) = some (c.hasAttribute a) := by
      simp [ifHasAttributeNoSanitize, hnd, hop]
    refine ⟨?_, ?_⟩
    · simp [hardError, hcond]
    · rw [hiff, hifdef, hcond]
      simp
  refine ⟨?_, hiff, ?_, ?_, fun hha a hop => (hbuiltin hha a hop).2, ?_⟩
  · rw [defined_eq, hlk]; rfl
  · rw [hlk]
    by_cases hc : ifdefHasAttribute c (macrosHead env) = true ∧
        ifHasAttributeNoSanitize c (macrosHead env) = some true
    · simp [hc, attrNoSanitizeMemory]
    · simp [hc]
  · rw [hlk]
    by_cases hc : ifdefHasAttribute c (macrosHead env) = true ∧
        ifHasAttributeNoSanitize c (macrosHead env) = some true
    · simp [hc]
    · simp [hc]
  · intro hha hns
    refine hbuiltin hha "no_sanitize" ?_
    refine expandHiding_undefined _ _ _ ?_
    rw [lookup_macrosHead]
    simp only [String.reduceEq, if_false, hns]

theorem no_sanitize_memory_definition_witness :
    defined ATHERIS_MACROS_H_ appleEnv = false ∧
    (macros_h clang appleEnv).lookup "NO_SANITIZE_MEMORY" = some attrNoSanitizeMemory ∧
    (macros_h plain appleEnv).lookup "NO_SANITIZE_MEMORY" = some [] ∧
    (macros_h clang [("no_sanitize", [.ident "foo"])]).lookup "NO_SANITIZE_MEMORY" =
      some [] :=
  ⟨by decide,
   ((no_sanitize_memory_definition clang appleEnv (by decide)).2.2.2.2.2
      (by decide) (by decide)).2.mpr ⟨rfl, by decide⟩,
   (no_sanitize_memory_definition plain appleEnv (by decide)).2.2.1.mpr (by decide),
   (no_sanitize_memory_definition clang [("no_sanitize", [.ident "foo"])]
      (by decide)).2.2.1.mpr (by decide)⟩

/-- C6: at its first inclusion the header defines `NO_SANITIZE_ADDRESS` with the
replacement `__attribute__((no_sanitize_address))` in every build configuration;
two configurations that differ in `__has_attribute`, `__APPLE__`,
`MAP_ANONYMOUS` or `MAP_ANON` give the same definition. -/
theorem no_sanitize_address_definition (c c' : Compiler) (env env' : Env)
    (hfirst : defined ATHERIS_MACROS_H_ env = false)
    (hfirst' : defined ATHERIS_MACROS_H_ env' = false) :
    defined "NO_SANITIZE_ADDRESS" (macros_h c env) = true ∧
    (macros_h c env).lookup "NO_SANITIZE_ADDRESS" = some attrNoSanitizeAddress ∧
    (macros_h c env).lookup "NO_SANITIZE_ADDRESS" =
      (macros_h c' env').lookup "NO_SANITIZE_ADDRESS" := by
  have hlk : ∀ (d : Compiler) (e : Env), defined ATHERIS_MACROS_H_ e = false →
      (macros_h d e).lookup "NO_SANITIZE_ADDRESS" = some attrNoSanitizeAddress := by
    intro d e he
    rw [macros_h_first d e he, lookup_macrosBody]
    simp only [String.reduceEq, if_false, if_true]
  rw [defined_eq, hlk c env hfirst, hlk c' env' hfirst']
  exact ⟨rfl, rfl, rfl⟩

theorem no_sanitize_address_definition_witness :
    defined ATHERIS_MACROS_H_ appleEnv = false ∧ defined ATHERIS_MACROS_H_ linuxEnv = false ∧
    (macros_h clang appleEnv).lookup "NO_SANITIZE_ADDRESS" =
      (macros_h plain linuxEnv).lookup "NO_SANITIZE_ADDRESS" :=
  ⟨by decide, by decide,
   (no_sanitize_address_definition clang plain appleEnv linuxEnv (by decide) (by decide)).2.2⟩

/-- C3: when `MAP_ANONYMOUS` is already defined at the inclusion, its definition
after the header is the one before it, whatever `MAP_ANON` is. -/
theorem map_anonymous_not_redefined (c : Compiler) (env : Env)
    (hdef : defined "MAP_ANONYMOUS" env = true) :
    (macros_h c env).lookup "MAP_ANONYMOUS" = env.lookup "MAP_ANONYMOUS" := by
  by_cases h : defined ATHERIS_MACROS_H_ env = true
  · rw [macros_h_again c env h]
  · rw [macros_h_first c env (by simpa using h), lookup_macrosBody]
    simp [hdef]

theorem map_anonymous_not_redefined_witness :
    defined "MAP_ANONYMOUS" linuxEnv = true ∧
    (macros_h clang linuxEnv).lookup "MAP_ANONYMOUS" = some [.punct "0x20"] :=
  ⟨by decide, map_anonymous_not_redefined clang linuxEnv (by decide)⟩

/-- C7: at its first inclusion the header defines `sighandler_t` when `__APPLE__`
is defined, with replacement `sig_t`: a use of `sighandler_t` expands to what
`sig_t` expands to when rescanned, to `sig_t` itself when that is the name of a
native type and no macro, and every use of `sighandler_t` among other tokens
expands like `sig_t` in its place unless `sig_t` leads back to `sighandler_t`.
When `__APPLE__` is not defined, what `sighandler_t` is defined as is left as
it was. -/
theorem sighandler_alias (c : Compiler) (env : Env)
    (hfirst : defined ATHERIS_MACROS_H_ env = false) :
    (defined "__APPLE__" env = true →
      (macros_h c env).lookup "sighandler_t" = some [.ident "sig_t"] ∧
      expand (macros_h c env) [.ident "sighandler_t"] =
        expandHiding (macros_h c env) ["sighandler_t"] [.ident "sig_t"] ∧
      (env.lookup "sig_t" = none →
        expand (macros_h c env) [.ident "sighandler_t"] = [.ident "sig_t"]) ∧
      (Tok.ident "sighandler_t" ∉ expand (macros_h c env) [.ident "sighandler_t"] →
        ∀ pre post : List Tok,
          expand (macros_h c env) (pre ++ .ident "sighandler_t" :: post) =
            expand (macros_h c env) (pre ++ .ident "sig_t" :: post))) ∧
    (defined "__APPLE__" env = false →
      (macros_h c env).lookup "sighandler_t" = env.lookup "sighandler_t") := by
  have hlk : (macros_h c env).lookup "sighandler_t" =
      if defined "__APPLE__" env = true then some [.ident "sig_t"]
        else env.lookup "sighandler_t" := by
    rw [macros_h_first c env hfirst, lookup_macrosBody]
    simp only [String.reduceEq, if_false, if_true]
  have hsig : (macros_h c env).lookup "sig_t" = env.lookup "sig_t" := by
    rw [macros_h_first c env hfirst, lookup_macrosBody]
    simp only [String.reduceEq, if_false]
  refine ⟨?_, ?_⟩
  · intro ha
    have hsome : (macros_h c env).lookup "sighandler_t" = some [.ident "sig_t"] := by
      rw [hlk, if_pos ha]
    refine ⟨hsome, expand_ident _ _ _ hsome, ?_, ?_⟩
    · intro hnat
      rw [expand_ident _ _ _ hsome]
      exact expandHiding_undefined _ _ _ (hsig.trans hnat)
    · intro hself pre post
      rw [expand_middle, expand_middle, expand_ident_of_not_mem _ _ _ hsome hself]
  · intro ha
    rw [hlk, if_neg (by simp [ha])]

theorem sighandler_alias_witness :
    defined ATHERIS_MACROS_H_ appleEnv = false ∧
    (macros_h clang appleEnv).lookup "sighandler_t" = some [.ident "sig_t"] ∧
    expand (macros_h clang appleEnv) [.ident "sighandler_t"] =
      expand (macros_h clang appleEnv) [.ident "sig_t"] ∧
    (macros_h clang linuxEnv).lookup "sighandler_t" = none :=
  ⟨by decide,
   ((sighandler_alias clang appleEnv (by decide)).1 (by decide)).1,
   ((sighandler_alias clang appleEnv (by decide)).1 (by decide)).2.2.2 (by decide) [] [],
   (sighandler_alias clang linuxEnv (by decide)).2 (by decide)⟩

/-- C5, as stated: in every build configuration the attribute that
`NO_SANITIZE_ADDRESS` expands to is one the compiler supports.  This fails for a
compiler that does not know `no_sanitize_address`: the header defines the macro
without asking. -/
theorem no_sanitize_address_not_always_supported :
    ¬ (∀ (c : Compiler) (env : Env), defined ATHERIS_MACROS_H_ env = false →
        ∃ a, ((macros_h c env).lookup "NO_SANITIZE_ADDRESS").bind attributeOf = some a ∧
          c.supportsAttribute a = true) := by
  intro h
  obtain ⟨a, _, ha⟩ := h plain [] (by decide)
  simp [plain] at ha

/-- C5, amended: in every build configuration `NO_SANITIZE_ADDRESS` expands to
the attribute `no_sanitize_address`, whatever the compiler supports; that
attribute is one the compiler supports exactly when the compiler supports
`no_sanitize_address`. -/
theorem no_sanitize_address_attribute (c : Compiler) (env : Env)
    (hfirst : defined ATHERIS_MACROS_H_ env = false) :
    ((macros_h c env).lookup "NO_SANITIZE_ADDRESS").bind attributeOf =
      some "no_sanitize_address" ∧
    ((∃ a, ((macros_h c env).lookup "NO_SANITIZE_ADDRESS").bind attributeOf = some a ∧
        c.supportsAttribute a = true) ↔
      c.supportsAttribute "no_sanitize_address" = true) := by
  have hlk : (macros_h c env).lookup "NO_SANITIZE_ADDRESS" = some attrNoSanitizeAddress := by
    rw [macros_h_first c env hfirst, lookup_macrosBody]
    simp only [String.reduceEq, if_false, if_true]
  have hattr : ((macros_h c env).lookup "NO_SANITIZE_ADDRESS").bind attributeOf =
      some "no_sanitize_address" := by
    rw [hlk]; rfl
  refine ⟨hattr, ?_⟩
  rw [hattr]
  constructor
  · rintro ⟨a, ha, hs⟩
    cases ha
    exact hs
  · intro hs
    exact ⟨_, rfl, hs⟩

theorem no_sanitize_address_attribute_witness :
    defined ATHERIS_MACROS_H_ linuxEnv = false ∧
    ((macros_h clang linuxEnv).lookup "NO_SANITIZE_ADDRESS").bind attributeOf =
      some "no_sanitize_address" ∧
    ((macros_h plain linuxEnv).lookup "NO_SANITIZE_ADDRESS").bind attributeOf =
      some "no_sanitize_address" :=
  ⟨by decide,
   (no_sanitize_address_attribute clang linuxEnv (by decide)).1,
   (no_sanitize_address_attribute plain linuxEnv (by decide)).1⟩

/-- C9: in every build configuration and for every starting table, the first
pass over the header leaves the guard defined, and a second pass leaves the
whole table unchanged, also after the consumer has defined or undefined macros
other than the guard in between. -/
theorem macros_h_idempotent (c c' : Compiler) (env : Env) (ds : List Directive)
    (hds : ∀ d ∈ ds, d.name ≠ ATHERIS_MACROS_H_) :
    defined ATHERIS_MACROS_H_ (macros_h c env) = true ∧
    macros_h c' (macros_h c env) = macros_h c env ∧
    macros_h c' (runDirectives ds (macros_h c env)) = runDirectives ds (macros_h c env) := by
  have hg := defined_guard_macros_h c env
  refine ⟨hg, macros_h_again c' _ hg, macros_h_again c' _ ?_⟩
  rw [defined_runDirectives ds ATHERIS_MACROS_H_ hds]
  exact hg

theorem macros_h_idempotent_witness :
    macros_h clang (macros_h clang appleEnv) = macros_h clang appleEnv ∧
    macros_h clang (runDirectives [.undefine "NO_SANITIZE", .define "sighandler_t" []]
        (macros_h clang appleEnv)) =
      runDirectives [.undefine "NO_SANITIZE", .define "sighandler_t" []]
        (macros_h clang appleEnv) ∧
    defined "NO_SANITIZE" (runDirectives [.undefine "NO_SANITIZE", .define "sighandler_t" []]
        (macros_h clang appleEnv)) = false :=
  ⟨(macros_h_idempotent clang clang appleEnv [] (by simp)).2.1,
   (macros_h_idempotent clang clang appleEnv [.undefine "NO_SANITIZE", .define "sighandler_t" []]
      (by decide)).2.2,
   by decide⟩

/-- C4, as stated: whenever `MAP_ANONYMOUS` is not defined and `MAP_ANON` is,
`MAP_ANONYMOUS` expands after the header to what `MAP_ANON` expands to.  This
fails when `MAP_ANON` is itself defined as `MAP_ANONYMOUS`: a macro is not
replaced inside its own expansion, so each of the two names expands to itself. -/
theorem map_anonymous_not_always_like_map_anon :
    ¬ (∀ (c : Compiler) (env : Env), defined ATHERIS_MACROS_H_ env = false →
        defined "MAP_ANONYMOUS" env = false ∧ defined "MAP_ANON" env = true →
        expand (macros_h c env) [.ident "MAP_ANONYMOUS"] =
          expand (macros_h c env) [.ident "MAP_ANON"]) := by
  intro h
  have := h clang [("MAP_ANON", [.ident "MAP_ANONYMOUS"])] (by decide) (by decide)
  exact absurd this (by decide)

/-- C4, amended: at its first inclusion the header changes the definition of
`MAP_ANONYMOUS` exactly when `MAP_ANONYMOUS` is not defined and `MAP_ANON` is;
the new replacement is `MAP_ANON`, and `MAP_ANONYMOUS` expands to what
`MAP_ANON` expands to exactly when the expansion of `MAP_ANON` does not lead
back to `MAP_ANONYMOUS`; then every use of `MAP_ANONYMOUS` among other tokens
expands like `MAP_ANON` in its place.  With neither defined, `MAP_ANONYMOUS`
stays undefined. -/
theorem map_anonymous_fallback (c : Compiler) (env : Env)
    (hfirst : defined ATHERIS_MACROS_H_ env = false) :
    ((macros_h c env).lookup "MAP_ANONYMOUS" ≠ env.lookup "MAP_ANONYMOUS" ↔
      (defined "MAP_ANONYMOUS" env = false ∧ defined "MAP_ANON" env = true)) ∧
    (defined "MAP_ANONYMOUS" env = false ∧ defined "MAP_ANON" env = true →
      (macros_h c env).lookup "MAP_ANONYMOUS" = some [.ident "MAP_ANON"] ∧
      (expand (macros_h c env) [.ident "MAP_ANONYMOUS"] =
          expand (macros_h c env) [.ident "MAP_ANON"] ↔
        Tok.ident "MAP_ANONYMOUS" ∉ expand (macros_h c env) [.ident "MAP_ANONYMOUS"]) ∧
      (Tok.ident "MAP_ANONYMOUS" ∉ expand (macros_h c env) [.ident "MAP_ANONYMOUS"] →
        ∀ pre post : List Tok,
          expand (macros_h c env) (pre ++ .ident "MAP_ANONYMOUS" :: post) =
            expand (macros_h c env) (pre ++ .ident "MAP_ANON" :: post))) ∧
    (defined "MAP_ANONYMOUS" env = false ∧ defined "MAP_ANON" env = false →
      defined "MAP_ANONYMOUS" (macros_h c env) = false) := by
  have hlk : (macros_h c env).lookup "MAP_ANONYMOUS" =
      if defined "MAP_ANONYMOUS" env = false ∧ defined "MAP_ANON" env = true
        then some [.ident "MAP_ANON"] else env.lookup "MAP_ANONYMOUS" := by
    rw [macros_h_first c env hfirst, lookup_macrosBody]
    simp only [String.reduceEq, if_false, if_true]
  have hanon : (macros_h c env).lookup "MAP_ANON" = env.lookup "MAP_ANON" := by
    rw [lookup_macros_h_other c env hfirst "MAP_ANON" (by decide)]
    simp only [String.reduceEq, if_false]
  refine ⟨?_, ?_, ?_⟩
  · rw [hlk]
    by_cases hc : defined "MAP_ANONYMOUS" env = false ∧ defined "MAP_ANON" env = true
    · have hnone : env.lookup "MAP_ANONYMOUS" = none := by
        have := hc.1
        rw [defined_eq] at this
        simpa using this
      simp [hc, hnone]
    · simp [hc]
  · intro hc
    have hsome : (macros_h c env).lookup "MAP_ANONYMOUS" = some [.ident "MAP_ANON"] := by
      rw [hlk, if_pos hc]
    obtain ⟨r, hr⟩ : ∃ r, (macros_h c env).lookup "MAP_ANON" = some r := by
      have := hc.2
      rw [defined_eq, Option.isSome_iff_exists] at this
      obtain ⟨r, hr⟩ := this
      exact ⟨r, hanon.trans hr⟩
    have hnot : Tok.ident "MAP_ANONYMOUS" ∉ expand (macros_h c env) [.ident "MAP_ANON"] :=
      not_mem_expand_of_alias _ "MAP_ANONYMOUS" "MAP_ANON" r (by decide) hsome hr
    refine ⟨hsome, ⟨?_, expand_ident_of_not_mem _ _ _ hsome⟩, ?_⟩
    · intro heq
      rw [heq]
      exact hnot
    · intro hself pre post
      rw [expand_middle, expand_middle, expand_ident_of_not_mem _ _ _ hsome hself]
  · intro hc
    have hnot : ¬ (defined "MAP_ANONYMOUS" env = false ∧ defined "MAP_ANON" env = true) := by
      simp [hc.2]
    rw [defined_eq, hlk, if_neg hnot, ← defined_eq]
    exact hc.1

theorem map_anonymous_fallback_witness :
    defined ATHERIS_MACROS_H_ appleEnv = false ∧
    (macros_h clang appleEnv).lookup "MAP_ANONYMOUS" = some [.ident "MAP_ANON"] ∧
    expand (macros_h clang appleEnv) [.ident "MAP_ANONYMOUS"] =
      expand (macros_h clang appleEnv) [.ident "MAP_ANON"] :=
  ⟨by decide,
   ((map_anonymous_fallback clang appleEnv (by decide)).2.1 (by decide)).1,
   ((map_anonymous_fallback clang appleEnv (by decide)).2.1 (by decide)).2.1.mpr (by decide)⟩

/-- C2, as stated: in every build configuration the full expansion of
`NO_SANITIZE` is the expansion of `NO_SANITIZE_ADDRESS` followed by the expansion
of `NO_SANITIZE_MEMORY`, and the expansion of `NO_SANITIZE_ADDRESS` alone when
`NO_SANITIZE_MEMORY` is empty.  Both fail when an identifier of the attribute is
a macro that leads back to `NO_SANITIZE`, as after
`#define no_sanitize_address NO_SANITIZE`: inside `NO_SANITIZE` the name is left
as it is, inside `NO_SANITIZE_ADDRESS` alone it is replaced. -/
theorem no_sanitize_not_always_both :
    ¬ (∀ (c : Compiler) (env : Env), defined ATHERIS_MACROS_H_ env = false →
        expand (macros_h c env) [.ident "NO_SANITIZE"] =
          expand (macros_h c env) [.ident "NO_SANITIZE_ADDRESS"] ++
          expand (macros_h c env) [.ident "NO_SANITIZE_MEMORY"]) ∧
    ¬ (∀ (c : Compiler) (env : Env), defined ATHERIS_MACROS_H_ env = false →
        (macros_h c env).lookup "NO_SANITIZE_MEMORY" = some [] →
        expand (macros_h c env) [.ident "NO_SANITIZE"] =
          expand (macros_h c env) [.ident "NO_SANITIZE_ADDRESS"]) := by
  constructor
  · intro h
    have := h clang [("no_sanitize_address", [.ident "NO_SANITIZE"])] (by decide)
    exact absurd this (by decide)
  · intro h
    have := h plain [("no_sanitize_address", [.ident "NO_SANITIZE"])] (by decide) (by decide)
    exact absurd this (by decide)

/-- C2, amended: at its first inclusion, in every build configuration in which
the expansion of `NO_SANITIZE` does not lead back to the name `NO_SANITIZE`, the
full expansion of `NO_SANITIZE` is the expansion of `NO_SANITIZE_ADDRESS`
followed by the expansion of `NO_SANITIZE_MEMORY`, it is the expansion of
`NO_SANITIZE_ADDRESS` alone when `NO_SANITIZE_MEMORY` is empty, and every use of
`NO_SANITIZE` among other tokens expands like
`NO_SANITIZE_ADDRESS NO_SANITIZE_MEMORY` in its place.  The expansion does not
lead back to `NO_SANITIZE` in any configuration in which `__attribute__`,
`no_sanitize_address` and `no_sanitize` are no macros. -/
theorem no_sanitize_combined (c : Compiler) (env : Env)
    (hfirst : defined ATHERIS_MACROS_H_ env = false) :
    (Tok.ident "NO_SANITIZE" ∉ expand (macros_h c env) [.ident "NO_SANITIZE"] →
      expand (macros_h c env) [.ident "NO_SANITIZE"] =
        expand (macros_h c env) [.ident "NO_SANITIZE_ADDRESS"] ++
        expand (macros_h c env) [.ident "NO_SANITIZE_MEMORY"] ∧
      ((macros_h c env).lookup "NO_SANITIZE_MEMORY" = some [] →
        expand (macros_h c env) [.ident "NO_SANITIZE"] =
          expand (macros_h c env) [.ident "NO_SANITIZE_ADDRESS"]) ∧
      (∀ pre post : List Tok,
        expand (macros_h c env) (pre ++ .ident "NO_SANITIZE" :: post) =
          expand (macros_h c env)
            (pre ++ .ident "NO_SANITIZE_ADDRESS" :: .ident "NO_SANITIZE_MEMORY" :: post))) ∧
    (env.lookup "__attribute__" = none → env.lookup "no_sanitize_address" = none →
      env.lookup "no_sanitize" = none →
      Tok.ident "NO_SANITIZE" ∉ expand (macros_h c env) [.ident "NO_SANITIZE"]) := by
  have hlk : (macros_h c env).lookup "NO_SANITIZE" =
      some [.ident "NO_SANITIZE_ADDRESS", .ident "NO_SANITIZE_MEMORY"] := by
    rw [macros_h_first c env hfirst, lookup_macrosBody]
    simp only [if_true]
  have hlkA : (macros_h c env).lookup "NO_SANITIZE_ADDRESS" = some attrNoSanitizeAddress := by
    rw [macros_h_first c env hfirst, lookup_macrosBody]
    simp only [String.reduceEq, if_false, if_true]
  have hlkM : (macros_h c env).lookup "NO_SANITIZE_MEMORY" =
      some (if ifdefHasAttribute c (macrosHead env) = true ∧
          ifHasAttributeNoSanitize c (macrosHead env) = some true
        then attrNoSanitizeMemory else []) := by
    rw [macros_h_first c env hfirst, lookup_macrosBody]
    simp only [String.reduceEq, if_false, if_true]
  have hhide : ∀ m ∈ ["NO_SANITIZE"], defined m (macros_h c env) = true := by
    intro m hm
    rw [List.mem_singleton] at hm
    rw [hm, defined_eq, hlk]; rfl
  have hexp := expand_ident _ _ _ hlk
  have happ : expandHiding (macros_h c env) ["NO_SANITIZE"]
      [.ident "NO_SANITIZE_ADDRESS", .ident "NO_SANITIZE_MEMORY"] =
      expandHiding (macros_h c env) ["NO_SANITIZE"] [.ident "NO_SANITIZE_ADDRESS"] ++
      expandHiding (macros_h c env) ["NO_SANITIZE"] [.ident "NO_SANITIZE_MEMORY"] :=
    expandHiding_append _ _ [.ident "NO_SANITIZE_ADDRESS"] [.ident "NO_SANITIZE_MEMORY"]
  refine ⟨?_, ?_⟩
  · intro hself
    have hsum : expand (macros_h c env) [.ident "NO_SANITIZE"] =
        expand (macros_h c env) [.ident "NO_SANITIZE_ADDRESS", .ident "NO_SANITIZE_MEMORY"] :=
      expand_ident_of_not_mem _ _ _ hlk hself
    have hsplit : expand (macros_h c env)
        [.ident "NO_SANITIZE_ADDRESS", .ident "NO_SANITIZE_MEMORY"] =
        expand (macros_h c env) [.ident "NO_SANITIZE_ADDRESS"] ++
        expand (macros_h c env) [.ident "NO_SANITIZE_MEMORY"] :=
      expandHiding_append _ _ [.ident "NO_SANITIZE_ADDRESS"] [.ident "NO_SANITIZE_MEMORY"]
    refine ⟨hsum.trans hsplit, ?_, ?_⟩
    · intro hempty
      have hnil : expand (macros_h c env) [.ident "NO_SANITIZE_MEMORY"] = [] := by
        rw [expand_ident _ _ _ hempty]
        exact expandHiding_nil _ _
      rw [hsum, hsplit, hnil, List.append_nil]
    · intro pre post
      rw [expand_middle, expand_middle, expand_cons _ _ post, hsum, hsplit,
        List.append_assoc]
  · intro h1 h2 h3
    have hnone : ∀ n, n = "__attribute__" ∨ n = "no_sanitize_address" ∨ n = "no_sanitize" →
        (macros_h c env).lookup n = none := by
      intro n hn
      rw [macros_h_first c env hfirst, lookup_macrosBody]
      rcases hn with rfl | rfl | rfl <;> simp only [String.reduceEq, if_false] <;> assumption
    have hidA : ∀ n, Tok.ident n ∈ attrNoSanitizeAddress → (macros_h c env).lookup n = none := by
      intro n hn
      apply hnone
      simp [attrNoSanitizeAddress] at hn
      tauto
    have hidM : ∀ n, Tok.ident n ∈
        (if ifdefHasAttribute c (macrosHead env) = true ∧
            ifHasAttributeNoSanitize c (macrosHead env) = some true
          then attrNoSanitizeMemory else []) → (macros_h c env).lookup n = none := by
      intro n hn
      apply hnone
      split_ifs at hn
      · simp [attrNoSanitizeMemory] at hn
        tauto
      · simp at hn
    rw [hexp, happ,
      expandHiding_ident _ _ _ _ hlkA (by decide) (List.nodup_singleton _) hhide,
      expandHiding_ident _ _ _ _ hlkM (by decide) (List.nodup_singleton _) hhide,
      expandHiding_eq_self _ _ _ hidA, expandHiding_eq_self _ _ _ hidM]
    intro hmem
    rcases List.mem_append.mp hmem with hm | hm
    · have := hidA _ hm
      rw [hlk] at this
      cases this
    · have := hidM _ hm
      rw [hlk] at this
      cases this

theorem no_sanitize_combined_witness :
    defined ATHERIS_MACROS_H_ appleEnv = false ∧
    expand (macros_h clang appleEnv) [.ident "NO_SANITIZE"] =
      expand (macros_h clang appleEnv) [.ident "NO_SANITIZE_ADDRESS"] ++
      expand (macros_h clang appleEnv) [.ident "NO_SANITIZE_MEMORY"] ∧
    expand (macros_h plain appleEnv) [.ident "NO_SANITIZE"] =
      expand (macros_h plain appleEnv) [.ident "NO_SANITIZE_ADDRESS"] :=
  ⟨by decide,
   ((no_sanitize_combined clang appleEnv (by decide)).1
      ((no_sanitize_combined clang appleEnv (by decide)).2
        (by decide) (by decide) (by decide))).1,
   ((no_sanitize_combined plain appleEnv (by decide)).1 (by decide)).2.1 (by decide)⟩

/-- C8, as stated: for any two build configurations the full expansion of each
facility is the same however the other facilities are defined.  This fails for
`NO_SANITIZE`: it is defined alike with and without `no_sanitize` support, but
its full expansion follows the definition of `NO_SANITIZE_MEMORY`.  With
`NO_SANITIZE` left out it still fails when a macro from outside the header
leads to a facility, as after `#define MAP_ANON NO_SANITIZE_MEMORY`: the full
expansion of `MAP_ANONYMOUS` then follows `NO_SANITIZE_MEMORY` as well. -/
theorem facilities_not_all_independent :
    ¬ (∀ (c1 c2 : Compiler) (env1 env2 : Env),
        defined ATHERIS_MACROS_H_ env1 = false → defined ATHERIS_MACROS_H_ env2 = false →
        ∀ f ∈ facilities,
          (macros_h c1 env1).lookup f = (macros_h c2 env2).lookup f →
          expand (macros_h c1 env1) [.ident f] = expand (macros_h c2 env2) [.ident f]) ∧
    ¬ (∀ (c1 c2 : Compiler) (env1 env2 : Env),
        defined ATHERIS_MACROS_H_ env1 = false → defined ATHERIS_MACROS_H_ env2 = false →
        ∀ f ∈ facilities, f ≠ "NO_SANITIZE" →
          (macros_h c1 env1).lookup f = (macros_h c2 env2).lookup f →
          expand (macros_h c1 env1) [.ident f] = expand (macros_h c2 env2) [.ident f]) := by
  constructor
  · intro h
    have := h clang plain [] [] (by decide) (by decide) "NO_SANITIZE" (by decide) (by decide)
    exact absurd this (by decide)
  · intro h
    have := h clang plain [("MAP_ANON", [.ident "NO_SANITIZE_MEMORY"])]
      [("MAP_ANON", [.ident "NO_SANITIZE_MEMORY"])] (by decide) (by decide)
      "MAP_ANONYMOUS" (by decide) (by decide) (by decide)
    exact absurd this (by decide)

/-- C8, amended: take any two build configurations, at the first inclusion, whose
starting tables differ at most at the names `O`, with any two compilers.  The
full expansion of `NO_SANITIZE_ADDRESS` is the same in both; so is that of
`NO_SANITIZE_MEMORY` when the condition of lines 22-23 comes out alike, that of
`sighandler_t` when `__APPLE__` and `sighandler_t` are not among `O`, and that
of `MAP_ANONYMOUS` when `MAP_ANON` and `MAP_ANONYMOUS` are not among `O`: each
time however the other facilities are defined, as long as the expansion does not
come across another facility or a name of `O`.  `NO_SANITIZE` is not
independent: its replacement is `NO_SANITIZE_ADDRESS NO_SANITIZE_MEMORY` and its
expansion always comes across another facility.  The replacement the header
gives any of the four other facilities names no facility. -/
theorem facilities_independent_except_combined (c1 c2 : Compiler) (env1 env2 : Env)
    (O : List String)
    (hfirst1 : defined ATHERIS_MACROS_H_ env1 = false)
    (hfirst2 : defined ATHERIS_MACROS_H_ env2 = false)
    (hO : ∀ n, n ∉ O → env1.lookup n = env2.lookup n) :
    (avoids (macros_h c1 env1) (otherNames O "NO_SANITIZE_ADDRESS")
        [.ident "NO_SANITIZE_ADDRESS"] →
      expand (macros_h c1 env1) [.ident "NO_SANITIZE_ADDRESS"] =
        expand (macros_h c2 env2) [.ident "NO_SANITIZE_ADDRESS"]) ∧
    (((ifdefHasAttribute c1 (macrosHead env1) = true ∧
          ifHasAttributeNoSanitize c1 (macrosHead env1) = some true) ↔
        (ifdefHasAttribute c2 (macrosHead env2) = true ∧
          ifHasAttributeNoSanitize c2 (macrosHead env2) = some true)) →
      avoids (macros_h c1 env1) (otherNames O "NO_SANITIZE_MEMORY")
        [.ident "NO_SANITIZE_MEMORY"] →
      expand (macros_h c1 env1) [.ident "NO_SANITIZE_MEMORY"] =
        expand (macros_h c2 env2) [.ident "NO_SANITIZE_MEMORY"]) ∧
    ("__APPLE__" ∉ O → "sighandler_t" ∉ O →
      avoids (macros_h c1 env1) (otherNames O "sighandler_t") [.ident "sighandler_t"] →
      expand (macros_h c1 env1) [.ident "sighandler_t"] =
        expand (macros_h c2 env2) [.ident "sighandler_t"]) ∧
    ("MAP_ANON" ∉ O → "MAP_ANONYMOUS" ∉ O →
      avoids (macros_h c1 env1) (otherNames O "MAP_ANONYMOUS") [.ident "MAP_ANONYMOUS"] →
      expand (macros_h c1 env1) [.ident "MAP_ANONYMOUS"] =
        expand (macros_h c2 env2) [.ident "MAP_ANONYMOUS"]) ∧
    ((macros_h c1 env1).lookup "NO_SANITIZE" =
        some [.ident "NO_SANITIZE_ADDRESS", .ident "NO_SANITIZE_MEMORY"] ∧
      ¬ avoids (macros_h c1 env1) (otherNames O "NO_SANITIZE") [.ident "NO_SANITIZE"]) ∧
    (∀ f ∈ facilities, f ≠ "NO_SANITIZE" →
      (macros_h c1 env1).lookup f ≠ env1.lookup f →
      ∀ r, (macros_h c1 env1).lookup f = some r → ∀ g ∈ facilities, Tok.ident g ∉ r) := by
  have hns : (macros_h c1 env1).lookup "NO_SANITIZE" =
      some [.ident "NO_SANITIZE_ADDRESS", .ident "NO_SANITIZE_MEMORY"] := by
    rw [macros_h_first c1 env1 hfirst1, lookup_macrosBody]
    simp only [if_true]
  have key : ∀ f : String,
      (macros_h c1 env1).lookup f = (macros_h c2 env2).lookup f →
      avoids (macros_h c1 env1) (otherNames O f) [.ident f] →
      expand (macros_h c1 env1) [.ident f] = expand (macros_h c2 env2) [.ident f] := by
    intro f hown hav
    refine expand_congr_env _ _ (otherNames O f) _ ?_ hav
    intro n hn
    by_cases hnf : n = f
    · rw [hnf]; exact hown
    · have hn' : n ∉ O ∧ n ∉ facilities := by
        constructor
        · intro hmem
          exact hn (List.mem_filter.mpr ⟨List.mem_append_left _ hmem, by simpa using hnf⟩)
        · intro hmem
          exact hn (List.mem_filter.mpr ⟨List.mem_append_right _ hmem, by simpa using hnf⟩)
      rw [lookup_macros_h_other c1 env1 hfirst1 n hn'.2,
        lookup_macros_h_other c2 env2 hfirst2 n hn'.2, hO n hn'.1]
  refine ⟨?_, ?_, ?_, ?_, ⟨hns, ?_⟩, ?_⟩
  · refine key _ ?_
    rw [macros_h_first c1 env1 hfirst1, macros_h_first c2 env2 hfirst2, lookup_macrosBody,
      lookup_macrosBody]
    simp only [String.reduceEq, if_false, if_true]
  · intro hcond
    refine key _ ?_
    rw [macros_h_first c1 env1 hfirst1, macros_h_first c2 env2 hfirst2, lookup_macrosBody,
      lookup_macrosBody]
    simp only [String.reduceEq, if_false, if_true]
    by_cases h1 : ifdefHasAttribute c1 (macrosHead env1) = true ∧
        ifHasAttributeNoSanitize c1 (macrosHead env1) = some true
    · rw [if_pos h1, if_pos (hcond.mp h1)]
    · rw [if_neg h1, if_neg (fun h2 => h1 (hcond.mpr h2))]
  · intro ha hs
    refine key _ ?_
    rw [macros_h_first c1 env1 hfirst1, macros_h_first c2 env2 hfirst2, lookup_macrosBody,
      lookup_macrosBody]
    simp only [String.reduceEq, if_false, if_true, defined_eq, hO _ ha, hO _ hs]
  · intro ha hs
    refine key _ ?_
    rw [macros_h_first c1 env1 hfirst1, macros_h_first c2 env2 hfirst2, lookup_macrosBody,
      lookup_macrosBody]
    simp only [String.reduceEq, if_false, if_true, defined_eq, hO _ ha, hO _ hs]
  · intro hav
    have hmemA : "NO_SANITIZE_ADDRESS" ∈ otherNames O "NO_SANITIZE" :=
      List.mem_filter.mpr
        ⟨List.mem_append_right _ (by decide), by decide⟩
    have hnot : "NO_SANITIZE" ∉ otherNames O "NO_SANITIZE" := by
      intro hmem
      have := (List.mem_filter.mp hmem).2
      simp at this
    apply hav "NO_SANITIZE_ADDRESS" hmemA
    unfold expandHiding
    cases hlen : (macros_h c1 env1).length with
    | zero =>
      rw [List.length_eq_zero] at hlen
      rw [hlen] at hns
      simp at hns
    | succ k =>
      rw [expandFuel_succ_eq]
      refine List.mem_flatMap.mpr ⟨.ident "NO_SANITIZE", List.mem_singleton_self _, ?_⟩
      simp only [rescanTok, hnot, if_false, hns]
      exact mem_expandFuel_of_hidden _ _ _ _ "NO_SANITIZE_ADDRESS"
        (List.mem_cons_of_mem _ hmemA) (by simp)
  · intro f hf hne hchg r hr g hg
    rw [macros_h_first c1 env1 hfirst1, lookup_macrosBody] at hchg hr
    simp only [facilities, List.mem_cons, List.mem_singleton, List.not_mem_nil, or_false] at hf hg
    rcases hf with rfl | rfl | rfl | rfl | rfl
    · simp only [String.reduceEq, if_false, if_true, Option.some.injEq] at hr
      subst hr
      rcases hg with rfl | rfl | rfl | rfl | rfl <;> simp [attrNoSanitizeAddress]
    · simp only [String.reduceEq, if_false, if_true, Option.some.injEq] at hr
      subst hr
      split_ifs <;>
        rcases hg with rfl | rfl | rfl | rfl | rfl <;> simp [attrNoSanitizeMemory]
    · exact absurd rfl hne
    · simp only [String.reduceEq, if_false, if_true] at hr hchg
      split_ifs at hr hchg with ha
      · simp only [Option.some.injEq] at hr
        subst hr
        rcases hg with rfl | rfl | rfl | rfl | rfl <;> simp
      · exact absurd rfl hchg
    · simp only [String.reduceEq, if_false, if_true] at hr hchg
      split_ifs at hr hchg with ha
      · simp only [Option.some.injEq] at hr
        subst hr
        rcases hg with rfl | rfl | rfl | rfl | rfl <;> simp
      · exact absurd rfl hchg

theorem facilities_independent_except_combined_witness :
    defined ATHERIS_MACROS_H_ appleEnv = false ∧ defined ATHERIS_MACROS_H_ linuxEnv = false ∧
    (macros_h clang appleEnv).lookup "NO_SANITIZE_MEMORY" ≠
      (macros_h plain appleEnv).lookup "NO_SANITIZE_MEMORY" ∧
    expand (macros_h clang appleEnv) [.ident "MAP_ANONYMOUS"] =
      expand (macros_h plain appleEnv) [.ident "MAP_ANONYMOUS"] ∧
    (macros_h clang appleEnv).lookup "sighandler_t" ≠
      (macros_h plain linuxEnv).lookup "sighandler_t" ∧
    expand (macros_h clang appleEnv) [.ident "NO_SANITIZE_ADDRESS"] =
      expand (macros_h plain linuxEnv) [.ident "NO_SANITIZE_ADDRESS"] :=
  ⟨by decide, by decide, by decide,
   (facilities_independent_except_combined clang plain appleEnv appleEnv []
      (by decide) (by decide) (fun _ _ => rfl)).2.2.2.1
      (by decide) (by decide) (by unfold avoids; decide),
   by decide,
   (facilities_independent_except_combined clang plain appleEnv linuxEnv
      ["__APPLE__", "MAP_ANON", "MAP_ANONYMOUS"] (by decide) (by decide)
      (by
        intro n hn
        simp only [List.mem_cons, List.mem_singleton, List.not_mem_nil, or_false,
          not_or] at hn
        have h1 : (n == "__APPLE__") = false := by simpa using hn.1
        have h2 : (n == "MAP_ANON") = false := by simpa using hn.2.1
        have h3 : (n == "MAP_ANONYMOUS") = false := by simpa using hn.2.2
        simp only [appleEnv, linuxEnv, List.lookup_cons, List.lookup_nil, h1, h2, h3])).1
      (by unfold avoids; decide)⟩

end Atheris
